import Mathlib

/-!
Verification of the Document Indexing & Retrieval-Augmented Query Engine
of the Language_Learning_Chatbot project.

The Python sources under `backend/` are shallowly embedded: pure
computations become Lean functions over `ℚ`/`ℕ`/`ℤ`/`List`, stateful code
becomes explicit state passing, fallible code returns `Except`/`Option`,
and I/O outcomes (filesystem, PDF parser, model backend) are passed in as
explicit environment values.  Floating point arithmetic of the source is
idealised as exact rational arithmetic.
-/

namespace LLCbot

set_option maxRecDepth 16000

/-! ## Python `round(x, 2)` (banker's rounding, idealised over ℚ)

Python `round` rounds half to even.  `roundHalfEven q` is that rounding of
a rational to an integer; `pyRound2 q` is `round(q, 2)`. -/

/-- Round half to even: the nearest integer to `q`, ties going to the even
neighbour (the semantics of Python `round`). -/
def roundHalfEven (q : ℚ) : ℤ :=
  if Int.fract q = 1 / 2 then
    (if 2 ∣ ⌊q⌋ then ⌊q⌋ else ⌊q⌋ + 1)
  else round q

/-- Python `round(q, 2)` over exact rationals. -/
def pyRound2 (q : ℚ) : ℚ := (roundHalfEven (100 * q) : ℚ) / 100

theorem round_eq_floor_of_fract_lt {q : ℚ} (h : Int.fract q < 1 / 2) :
    round q = ⌊q⌋ := by
  rw [round_eq, Int.floor_eq_iff]
  have hq := Int.floor_add_fract q
  have h0 := Int.fract_nonneg q
  constructor
  · linarith
  · linarith

theorem round_eq_floor_add_one_of_lt_fract {q : ℚ} (h : 1 / 2 < Int.fract q) :
    round q = ⌊q⌋ + 1 := by
  rw [round_eq, Int.floor_eq_iff]
  have hq := Int.floor_add_fract q
  have h1 := Int.fract_lt_one q
  constructor
  · push_cast
    linarith
  · push_cast
    linarith

theorem floor_le_roundHalfEven (q : ℚ) : ⌊q⌋ ≤ roundHalfEven q := by
  unfold roundHalfEven
  split
  · split <;> omega
  · rw [round_eq]
    exact Int.floor_le_floor (by linarith)

theorem roundHalfEven_le_floor_add_one (q : ℚ) : roundHalfEven q ≤ ⌊q⌋ + 1 := by
  unfold roundHalfEven
  split
  · split <;> omega
  · rename_i hne
    rcases lt_or_gt_of_ne hne with hlt | hgt
    · rw [round_eq_floor_of_fract_lt hlt]
      omega
    · rw [round_eq_floor_add_one_of_lt_fract hgt]

theorem roundHalfEven_mono {x y : ℚ} (h : x ≤ y) :
    roundHalfEven x ≤ roundHalfEven y := by
  rcases eq_or_lt_of_le (Int.floor_le_floor h) with hf | hf
  · -- same integer part: compare fractional parts
    have hfr : Int.fract x ≤ Int.fract y := by
      unfold Int.fract
      rw [hf]
      linarith
    rcases lt_trichotomy (Int.fract x) (1 / 2) with hx | hx | hx
    · -- round x = ⌊x⌋, and ⌊y⌋ ≤ rhe y
      have : roundHalfEven x = ⌊x⌋ := by
        unfold roundHalfEven
        rw [if_neg (by linarith), round_eq_floor_of_fract_lt hx]
      rw [this, hf]
      exact floor_le_roundHalfEven y
    · -- x is a tie
      rcases eq_or_lt_of_le hfr with hy | hy
    -- fract y = fract x and floors equal → x = y
      · have hxy : x = y := by
          have hx' : (⌊x⌋ : ℚ) + Int.fract x = x := Int.floor_add_fract x
          have hy' : (⌊y⌋ : ℚ) + Int.fract y = y := Int.floor_add_fract y
          rw [← hx', ← hy', hf, hy]
        rw [hxy]
      · have hytie : Int.fract y ≠ 1 / 2 := by rw [← hx]; exact ne_of_gt hy
        have : roundHalfEven y = ⌊y⌋ + 1 := by
          unfold roundHalfEven
          rw [if_neg hytie, round_eq_floor_add_one_of_lt_fract (by rw [← hx]; exact hy)]
        rw [this, ← hf]
        calc roundHalfEven x ≤ ⌊x⌋ + 1 := roundHalfEven_le_floor_add_one x
        _ = ⌊x⌋ + 1 := rfl
    · -- fract x > 1/2, hence fract y > 1/2 too
      have hy : 1 / 2 < Int.fract y := lt_of_lt_of_le hx hfr
      have hrx : roundHalfEven x ≤ ⌊x⌋ + 1 := roundHalfEven_le_floor_add_one x
      have : roundHalfEven y = ⌊y⌋ + 1 := by
        unfold roundHalfEven
        rw [if_neg (ne_of_gt hy), round_eq_floor_add_one_of_lt_fract hy]
      rw [this, ← hf]
      exact hrx
  · -- ⌊x⌋ < ⌊y⌋
    calc roundHalfEven x ≤ ⌊x⌋ + 1 := roundHalfEven_le_floor_add_one x
    _ ≤ ⌊y⌋ := hf
    _ ≤ roundHalfEven y := floor_le_roundHalfEven y

theorem roundHalfEven_intCast (n : ℤ) : roundHalfEven (n : ℚ) = n := by
  unfold roundHalfEven
  rw [Int.fract_intCast]
  norm_num

theorem pyRound2_mono {x y : ℚ} (h : x ≤ y) : pyRound2 x ≤ pyRound2 y := by
  unfold pyRound2
  have := roundHalfEven_mono (show 100 * x ≤ 100 * y by linarith)
  have hcast : (roundHalfEven (100 * x) : ℚ) ≤ (roundHalfEven (100 * y) : ℚ) :=
    Int.cast_le.mpr this
  linarith

theorem pyRound2_nonneg {x : ℚ} (h : 0 ≤ x) : 0 ≤ pyRound2 x := by
  unfold pyRound2
  have h0 : roundHalfEven ((0 : ℤ) : ℚ) ≤ roundHalfEven (100 * x) :=
    roundHalfEven_mono (by push_cast; linarith)
  rw [roundHalfEven_intCast] at h0
  have : (0 : ℚ) ≤ (roundHalfEven (100 * x) : ℚ) := by exact_mod_cast h0
  linarith

theorem pyRound2_le_one {x : ℚ} (h : x ≤ 1) : pyRound2 x ≤ 1 := by
  unfold pyRound2
  have h0 : roundHalfEven (100 * x) ≤ roundHalfEven ((100 : ℤ) : ℚ) :=
    roundHalfEven_mono (by push_cast; linarith)
  rw [roundHalfEven_intCast] at h0
  have : (roundHalfEven (100 * x) : ℚ) ≤ 100 := by exact_mod_cast h0
  linarith

/-! ## `backend/agents/qa_agent.py` — QAAgent

A retrieved chunk, as produced by
`ChromaVectorStore.retrieve_relevant_chunks` and consumed by `QAAgent`.
Only the fields the agent reads are modelled; `distance` is an `Option`
because the Python code reads it with `chunk.get('distance', 0.5)`. -/
structure RChunk where
  content : String
  page : ℕ
  distance : Option ℚ
deriving Repr, DecidableEq

/-- The distance the agent attributes to a chunk:
Python `chunk.get('distance', 0.5)`. -/
def RChunk.dist (c : RChunk) : ℚ := c.distance.getD (1 / 2)

/-- `avg_distance` of `QAAgent.calculate_confidence`: the arithmetic mean
of the chunks' distances. -/
def avgDistance (chunks : List RChunk) : ℚ :=
  (chunks.map RChunk.dist).sum / chunks.length

/-- `QAAgent.calculate_confidence(answer_data, context_chunks)` from
`backend/agents/qa_agent.py`.  `answer` is `answer_data.get('answer', '')`.
Returns `0.0` for an empty chunk list; otherwise blends the semantic
similarity `1 - min(avg_distance, 1.0)` with the length factor
`min(len(answer) / 100, 1.0)` as `similarity * 0.7 + length * 0.3`,
rounded to two decimal places. -/
def calculate_confidence (answer : String) (context_chunks : List RChunk) : ℚ :=
  if context_chunks.isEmpty then 0
  else
    let avg_distance := avgDistance context_chunks
    let similarity_score := 1 - min avg_distance 1
    let length_factor := min ((answer.length : ℚ) / 100) 1
    pyRound2 (similarity_score * (7 / 10) + length_factor * (3 / 10))

/-- The data dictionary a successful `QAAgent.process` answer carries.
`no_context` is an `Option` because the key is only present in the
zero-chunk branch of the Python code. -/
structure QAData where
  answer : String
  source_section : Option String
  page_number : Option ℕ
  confidence : ℚ
  language_level : String
  no_context : Option Bool
deriving Repr, DecidableEq

/-- `AgentResponse` as built by `QAAgent.process`. -/
structure QAResponse where
  success : Bool
  data : Option QAData
  error : Option String
deriving Repr, DecidableEq

/-- The fixed reply text of the zero-chunk branch of `QAAgent.process`. -/
def noContextAnswer : String :=
  "I couldn" ++ String.singleton (Char.ofNat 39) ++
    "t find relevant information in the PDF to answer your question."

/-- `QAAgent.process` from `backend/agents/qa_agent.py`, with retrieval
and generation abstracted: `retrieved` is what
`retrieve_context` returned (that helper already converts retrieval
exceptions into `[]`), and `gen` is the `_generate_answer` call, which
either produces an answer dictionary (here: its answer text, source
section and page number) or raises.  The zero-chunk branch returns the
fixed no-context response; the normal branch attaches the computed
confidence; a generation exception becomes a `success := false` response
via the enclosing `try`/`except`. -/
def QAAgent.process (retrieved : List RChunk) (language_level : String)
    (gen : List RChunk → Except String (String × Option String × Option ℕ)) :
    QAResponse :=
  if retrieved.isEmpty then
    { success := true
      data := some
        { answer := noContextAnswer
          source_section := none
          page_number := none
          confidence := 0
          language_level := language_level
          no_context := some true }
      error := none }
  else
    match gen retrieved with
    | Except.ok (ans, src, pg) =>
      { success := true
        data := some
          { answer := ans
            source_section := src
            page_number := pg
            confidence := calculate_confidence ans retrieved
            language_level := language_level
            no_context := none }
        error := none }
    | Except.error e =>
      { success := false, data := none, error := some e }

theorem avgDistance_nonneg {chunks : List RChunk}
    (h : ∀ c ∈ chunks, 0 ≤ c.dist) : 0 ≤ avgDistance chunks := by
  unfold avgDistance
  apply div_nonneg
  · apply List.sum_nonneg
    intro x hx
    obtain ⟨c, hc, rfl⟩ := List.mem_map.mp hx
    exact h c hc
  · positivity

/-- The pre-rounding blend `similarity * 0.7 + length_factor * 0.3` lies in
`[0, 1]` whenever the average distance is non-negative. -/
theorem blend_mem_unit {avg lf : ℚ} (havg : 0 ≤ avg) (h0 : 0 ≤ lf) (h1 : lf ≤ 1) :
    0 ≤ (1 - min avg 1) * (7 / 10) + lf * (3 / 10) ∧
      (1 - min avg 1) * (7 / 10) + lf * (3 / 10) ≤ 1 := by
  have hm0 : 0 ≤ min avg 1 := le_min havg (by norm_num)
  have hm1 : min avg 1 ≤ 1 := min_le_right _ _
  constructor <;> nlinarith

/-- **C1.** When retrieval returns zero chunks, `QAAgent.process` returns a
successful response whose data carries confidence `0.0` and the explicit
`no_context := True` flag, and the result does not depend on the answer
generator — generation is never invoked. -/
theorem qa_process_empty_retrieval (level : String)
    (gen gen' : List RChunk → Except String (String × Option String × Option ℕ)) :
    (QAAgent.process [] level gen).success = true ∧
    (QAAgent.process [] level gen).data.map QAData.confidence = some 0 ∧
    (QAAgent.process [] level gen).data.map QAData.no_context = some (some true) ∧
    (QAAgent.process [] level gen).error = none ∧
    QAAgent.process [] level gen = QAAgent.process [] level gen' :=
  ⟨rfl, rfl, rfl, rfl, rfl⟩

/-- **C3.** For a non-empty retrieved chunk set, the confidence equals
`round(0.7 * (1 - min(avgDistance, 1.0)) + 0.3 * min(len(answer)/100, 1.0), 2)`
with `avgDistance` the arithmetic mean of the chunk distances; and whenever
all distances are non-negative the result lies in `[0, 1]`. -/
theorem calculate_confidence_spec (answer : String) (chunks : List RChunk)
    (hne : chunks ≠ []) :
    calculate_confidence answer chunks =
      pyRound2 ((7 / 10) * (1 - min (avgDistance chunks) 1) +
        (3 / 10) * min ((answer.length : ℚ) / 100) 1) ∧
    ((∀ c ∈ chunks, 0 ≤ c.dist) →
      0 ≤ calculate_confidence answer chunks ∧
        calculate_confidence answer chunks ≤ 1) := by
  have hne' : chunks.isEmpty = false := by
    simpa [List.isEmpty_iff] using hne
  constructor
  · unfold calculate_confidence
    rw [hne']
    simp only [Bool.false_eq_true, if_false]
    congr 1
    ring
  · intro hd
    unfold calculate_confidence
    rw [hne']
    simp only [Bool.false_eq_true, if_false]
    have havg := avgDistance_nonneg hd
    have hl0 : (0 : ℚ) ≤ min ((answer.length : ℚ) / 100) 1 :=
      le_min (by positivity) (by norm_num)
    have hl1 : min ((answer.length : ℚ) / 100) 1 ≤ 1 := min_le_right _ _
    obtain ⟨hb0, hb1⟩ := blend_mem_unit havg hl0 hl1
    exact ⟨pyRound2_nonneg hb0, pyRound2_le_one hb1⟩

/-- Witness for C3 at a concrete input. -/
theorem calculate_confidence_spec_witness :
    calculate_confidence "short" [⟨"text", 1, some (2 / 5)⟩] =
      pyRound2 ((7 / 10) * (1 - min (avgDistance [⟨"text", 1, some (2 / 5)⟩]) 1) +
        (3 / 10) * min ((("short" : String).length : ℚ) / 100) 1) ∧
      (0 ≤ calculate_confidence "short" [⟨"text", 1, some (2 / 5)⟩] ∧
        calculate_confidence "short" [⟨"text", 1, some (2 / 5)⟩] ≤ 1) := by
  have h := calculate_confidence_spec "short" [⟨"text", 1, some (2 / 5)⟩]
    (by decide)
  refine ⟨h.1, h.2 ?_⟩
  intro c hc
  rcases List.mem_singleton.mp hc with rfl
  norm_num [RChunk.dist]

/-- **C8.** The confidence is non-increasing in average distance (hence
non-decreasing in similarity) holding the answer fixed, and non-decreasing
in answer length holding the chunks fixed (monotone everywhere, so in
particular up to the 100-character saturation point). -/
theorem calculate_confidence_monotone :
    (∀ (ans : String) (cs cs' : List RChunk), cs ≠ [] → cs' ≠ [] →
      avgDistance cs ≤ avgDistance cs' →
      calculate_confidence ans cs' ≤ calculate_confidence ans cs) ∧
    (∀ (a a' : String) (cs : List RChunk), a.length ≤ a'.length →
      calculate_confidence a cs ≤ calculate_confidence a' cs) := by
  constructor
  · intro ans cs cs' hcs hcs' havg
    have h1 : cs.isEmpty = false := by simpa [List.isEmpty_iff] using hcs
    have h2 : cs'.isEmpty = false := by simpa [List.isEmpty_iff] using hcs'
    unfold calculate_confidence
    rw [h1, h2]
    simp only [Bool.false_eq_true, if_false]
    apply pyRound2_mono
    have : min (avgDistance cs) 1 ≤ min (avgDistance cs') 1 :=
      min_le_min havg le_rfl
    nlinarith
  · intro a a' cs hlen
    unfold calculate_confidence
    cases h : cs.isEmpty
    · simp only [Bool.false_eq_true, if_false]
      apply pyRound2_mono
      have hc : ((a.length : ℚ) / 100) ≤ ((a'.length : ℚ) / 100) := by
        have : (a.length : ℚ) ≤ (a'.length : ℚ) := by exact_mod_cast hlen
        linarith
      have : min ((a.length : ℚ) / 100) 1 ≤ min ((a'.length : ℚ) / 100) 1 :=
        min_le_min hc le_rfl
      nlinarith
    · simp

/-- Witness for C8 at concrete inputs. -/
theorem calculate_confidence_monotone_witness :
    calculate_confidence "hi" [⟨"t", 1, some (4 / 5)⟩] ≤
      calculate_confidence "hi" [⟨"t", 1, some (1 / 5)⟩] ∧
    calculate_confidence "hi" [⟨"t", 1, some (1 / 5)⟩] ≤
      calculate_confidence "hi there" [⟨"t", 1, some (1 / 5)⟩] := by
  constructor
  · exact calculate_confidence_monotone.1 "hi"
      [⟨"t", 1, some (1 / 5)⟩] [⟨"t", 1, some (4 / 5)⟩]
      (by decide) (by decide)
      (by norm_num [avgDistance, RChunk.dist])
  · exact calculate_confidence_monotone.2 "hi" "hi there"
      [⟨"t", 1, some (1 / 5)⟩] (by decide)

/-! ## `backend/storage/pdf_handler.py` — PDFHandler.extract_text_chunks

The per-page chunking loop (lines 284–309).  Page text is modelled as a
`List Char`; Python slicing `page_text[start:end]` becomes
`sliceList`, and the `str.strip()` truthiness test becomes
`(pyStrip ·).isEmpty = false`.  The loop is written with explicit fuel
(one unit per iteration; `text.length + 1` units always suffice because
each iteration advances `start` by `chunk_size - overlap ≥ 1` when
`overlap < chunk_size`; for `overlap ≥ chunk_size` the Python loop does
not terminate).  The chunk classification fields (`is_vocabulary`,
`difficulty`, `word_count`) do not affect spans and are not modelled. -/

/-- Python `page_text[start:end]` for `start ≤ end`. -/
def sliceList (s : List Char) (a b : ℕ) : List Char := (s.drop a).take (b - a)

/-- Python `str.strip()`: remove leading and trailing whitespace. -/
def pyStrip (s : List Char) : List Char :=
  ((s.dropWhile Char.isWhitespace).reverse.dropWhile Char.isWhitespace).reverse

/-- One produced chunk record (span-relevant fields). -/
structure PChunk where
  text : List Char
  page : ℕ
  start_char : ℕ
  end_char : ℕ
deriving Repr, DecidableEq

/-- The `while start < len(page_text)` loop of `extract_text_chunks`:
`end = start + chunk_size`; the chunk is recorded (with the *unclamped*
`end_char = start + chunk_size`) iff its stripped text is non-empty;
`start = end - overlap if end < len(page_text) else len(page_text)`. -/
def chunkPageGo (S O page : ℕ) (text : List Char) : ℕ → ℕ → List PChunk
  | 0, _ => []
  | fuel + 1, start =>
    if start < text.length then
      let e := start + S
      let ct := sliceList text start e
      let tail := if e < text.length then chunkPageGo S O page text fuel (e - O) else []
      if (pyStrip ct).isEmpty then tail
      else { text := pyStrip ct, page := page, start_char := start, end_char := e } :: tail
    else []

/-- `PDFHandler.extract_text_chunks` restricted to a single page (pages are
chunked independently; chunk ids are not modelled). -/
def extract_text_chunks_page (page : ℕ) (text : List Char) (S O : ℕ) : List PChunk :=
  chunkPageGo S O page text (text.length + 1) 0

/-- Number of loop iterations for a page of length `L` with window `S` and
overlap `O < S`: `⌈(L − O) / (S − O)⌉` when `L > O`, else `1` for a
non-empty page (`0` for an empty one, which `extract_text_chunks` skips
before the loop). -/
def chunkCount (L S O : ℕ) : ℕ :=
  if L = 0 then 0 else if O < L then (L - O + (S - O) - 1) / (S - O) else 1

theorem chunkCount_spec (L S O : ℕ) (hSO : O < S) (hL : 0 < L) :
    0 < chunkCount L S O ∧
    L ≤ (chunkCount L S O - 1) * (S - O) + S ∧
    ∀ j, j + 1 < chunkCount L S O → j * (S - O) + S < L := by
  have hbpos : 0 < S - O := by omega
  unfold chunkCount
  rw [if_neg (by omega)]
  by_cases hOL : O < L
  · rw [if_pos hOL]
    have hrw : L - O + (S - O) - 1 = (L - O - 1) + (S - O) := by omega
    rw [hrw, Nat.add_div_right _ hbpos]
    have hdm := Nat.div_add_mod (L - O - 1) (S - O)
    have hr : (L - O - 1) % (S - O) < S - O := Nat.mod_lt _ hbpos
    obtain ⟨P, hP⟩ : ∃ P, (S - O) * ((L - O - 1) / (S - O)) = P := ⟨_, rfl⟩
    rw [hP] at hdm
    refine ⟨Nat.succ_pos _, ?_, ?_⟩
    · -- L ≤ ((m + 1) - 1) * (S - O) + S  where m = (L - O - 1) / (S - O)
      simp only [Nat.add_sub_cancel]
      rw [Nat.mul_comm, hP]
      omega
    · intro j hj
      have hjm : j + 1 ≤ (L - O - 1) / (S - O) := by omega
      have hmono : (j + 1) * (S - O) ≤ ((L - O - 1) / (S - O)) * (S - O) :=
        Nat.mul_le_mul_right _ hjm
      rw [Nat.add_mul, Nat.one_mul,
        Nat.mul_comm ((L - O - 1) / (S - O)) (S - O), hP] at hmono
      obtain ⟨Q, hQ⟩ : ∃ Q, j * (S - O) = Q := ⟨_, rfl⟩
      rw [hQ] at hmono ⊢
      omega
  · rw [if_neg hOL]
    refine ⟨Nat.one_pos, by omega, ?_⟩
    intro j hj
    omega

theorem chunkStart_lt (L S O : ℕ) (hSO : O < S) (hL : 0 < L) :
    ∀ i, i < chunkCount L S O → i * (S - O) < L := by
  obtain ⟨hpos, hlast, hmid⟩ := chunkCount_spec L S O hSO hL
  intro i hi
  rcases Nat.lt_or_ge (i + 1) (chunkCount L S O) with h | h
  · have := hmid i h
    omega
  · -- i = chunkCount - 1
    have hieq : i + 1 = chunkCount L S O := by omega
    rcases Nat.eq_or_lt_of_le hpos with h1 | h1
    · -- chunkCount = 1, hence i = 0
      have : i = 0 := by omega
      subst this
      simpa using hL
    · -- chunkCount ≥ 2: (n-2)*(S-O) + S < L and i*(S-O) = (n-2)*(S-O) + (S-O)
      have hj := hmid (chunkCount L S O - 2) (by omega)
      have hstep : i * (S - O) = (chunkCount L S O - 2) * (S - O) + (S - O) := by
        have : i = (chunkCount L S O - 2) + 1 := by omega
        rw [this, Nat.add_mul, Nat.one_mul]
      omega

/-- Characterization of the chunking loop, provided no visited window is
entirely whitespace: starting at the `i`-th loop position `i * (S - O)`,
the produced `(start_char, end_char)` spans are exactly
`(j * (S - O), j * (S - O) + S)` for `j = i, …, chunkCount − 1`. -/
theorem chunkPageGo_spec (S O page : ℕ) (text : List Char) (hSO : O < S)
    (Hnb : ∀ i, i < chunkCount text.length S O →
      (pyStrip (sliceList text (i * (S - O)) (i * (S - O) + S))).isEmpty = false) :
    ∀ fuel i, i < chunkCount text.length S O →
      text.length - i * (S - O) ≤ fuel →
      (chunkPageGo S O page text fuel (i * (S - O))).map
          (fun c => (c.start_char, c.end_char)) =
        (List.range' i (chunkCount text.length S O - i)).map
          (fun j => (j * (S - O), j * (S - O) + S)) := by
  have hL : 0 < text.length ∨ chunkCount text.length S O = 0 := by
    rcases Nat.eq_zero_or_pos text.length with h0 | h
    · right; rw [h0]; simp [chunkCount]
    · left; exact h
  intro fuel
  induction fuel with
  | zero =>
    intro i hi hfuel
    rcases hL with h | h
    · have := chunkStart_lt text.length S O hSO h i hi
      omega
    · omega
  | succ fuel ih =>
    intro i hi hfuel
    have hLpos : 0 < text.length := by rcases hL with h | h <;> omega
    obtain ⟨hpos, hlast, hmid⟩ := chunkCount_spec text.length S O hSO hLpos
    have hstart : i * (S - O) < text.length :=
      chunkStart_lt text.length S O hSO hLpos i hi
    simp only [chunkPageGo]
    rw [if_pos hstart, Hnb i hi]
    simp only [Bool.false_eq_true, if_false]
    by_cases hel : i * (S - O) + S < text.length
    · have hnext : i + 1 < chunkCount text.length S O := by
        by_contra hcon
        have hieq : i = chunkCount text.length S O - 1 := by omega
        rw [hieq] at hel
        omega
      have hmul : (i + 1) * (S - O) = i * (S - O) + (S - O) := by
        rw [Nat.add_mul, Nat.one_mul]
      have harg : i * (S - O) + S - O = (i + 1) * (S - O) := by omega
      have hfuel' : text.length - (i + 1) * (S - O) ≤ fuel := by omega
      rw [if_pos hel, harg, List.map_cons, ih (i + 1) hnext hfuel']
      rw [show chunkCount text.length S O - i =
        (chunkCount text.length S O - (i + 1)) + 1 by omega]
      rw [List.range'_succ, List.map_cons]
    · have hieq : i + 1 = chunkCount text.length S O := by
        by_contra hcon
        have := hmid i (by omega)
        omega
      rw [if_neg hel]
      rw [show chunkCount text.length S O - i = 1 by omega]
      simp [List.range'_succ]

/-- **C2 (amended).** For a non-empty page of length `L` chunked with
window `S` and overlap `O < S`, provided no visited window is entirely
whitespace: the produced spans are exactly
`(i*(S−O), i*(S−O)+S)` for `i = 0, …, chunkCount−1` (so consecutive start
offsets differ by `S − O`), the chunk count is `⌈(L−O)/(S−O)⌉` for
`L > O` and `1` otherwise, and every recorded `end_char` — including the
final chunk's — is `start_char + S`, *not* clamped to `L` (only the chunk
text itself is truncated by slicing). -/
theorem extract_text_chunks_page_spans (page S O : ℕ) (text : List Char)
    (hSO : O < S) (hL : 0 < text.length)
    (Hnb : ∀ i, i < chunkCount text.length S O →
      (pyStrip (sliceList text (i * (S - O)) (i * (S - O) + S))).isEmpty = false) :
    (extract_text_chunks_page page text S O).map
        (fun c => (c.start_char, c.end_char)) =
      (List.range (chunkCount text.length S O)).map
        (fun j => (j * (S - O), j * (S - O) + S)) ∧
    (extract_text_chunks_page page text S O).length =
      chunkCount text.length S O ∧
    ∀ c ∈ extract_text_chunks_page page text S O,
      c.end_char = c.start_char + S := by
  obtain ⟨hpos, _, _⟩ := chunkCount_spec text.length S O hSO hL
  have hmain := chunkPageGo_spec S O page text hSO Hnb (text.length + 1) 0
    hpos (by omega)
  rw [Nat.zero_mul, Nat.sub_zero] at hmain
  have hspans : (extract_text_chunks_page page text S O).map
      (fun c => (c.start_char, c.end_char)) =
      (List.range (chunkCount text.length S O)).map
        (fun j => (j * (S - O), j * (S - O) + S)) := by
    rw [List.range_eq_range']
    exact hmain
  refine ⟨hspans, ?_, ?_⟩
  · have := congrArg List.length hspans
    simpa using this
  · intro c hc
    have hcm : (c.start_char, c.end_char) ∈
        (List.range (chunkCount text.length S O)).map
          (fun j => (j * (S - O), j * (S - O) + S)) := by
      rw [← hspans]
      exact List.mem_map_of_mem _ hc
    obtain ⟨j, _, hpair⟩ := List.mem_map.mp hcm
    have h1 : c.start_char = j * (S - O) := (Prod.mk.injEq _ _ _ _ ▸ hpair).1.symm
    have h2 : c.end_char = j * (S - O) + S := (Prod.mk.injEq _ _ _ _ ▸ hpair).2.symm
    omega

/-- Witness for the amended C2 at the spec scenario (250-character page,
window 100, overlap 20). -/
theorem extract_text_chunks_page_spans_witness :
    (extract_text_chunks_page 1 (List.replicate 250 'a') 100 20).map
        (fun c => (c.start_char, c.end_char)) =
      (List.range (chunkCount (List.replicate 250 'a' : List Char).length 100 20)).map
        (fun j => (j * (100 - 20), j * (100 - 20) + 100)) ∧
    (extract_text_chunks_page 1 (List.replicate 250 'a') 100 20).length =
      chunkCount (List.replicate 250 'a' : List Char).length 100 20 ∧
    ∀ c ∈ extract_text_chunks_page 1 (List.replicate 250 'a') 100 20,
      c.end_char = c.start_char + 100 :=
  extract_text_chunks_page_spans 1 100 20 (List.replicate 250 'a')
    (by decide) (by decide) (by decide)

/-- **Counterexample to C2 as stated.** The spec scenario claims spans
`[0,100) [80,180) [160,250)` with the final recorded end clamped to the
page length; the code records the unclamped `end = start + chunk_size`,
producing `[0,100) [80,180) [160,260)`. -/
theorem extract_text_chunks_end_unclamped :
    (extract_text_chunks_page 1 (List.replicate 250 'a') 100 20).map
        (fun c => (c.start_char, c.end_char)) = [(0, 100), (80, 180), (160, 260)] ∧
    (extract_text_chunks_page 1 (List.replicate 250 'a') 100 20).map
        (fun c => (c.start_char, c.end_char)) ≠ [(0, 100), (80, 180), (160, 250)] := by
  have h : (extract_text_chunks_page 1 (List.replicate 250 'a') 100 20).map
      (fun c => (c.start_char, c.end_char)) = [(0, 100), (80, 180), (160, 260)] := by
    decide
  refine ⟨h, ?_⟩
  rw [h]
  decide

/-! ## `backend/config/gemini_config.py` — GeminiClient rate limiting

`_request_times` is modelled as a `List ℤ` of call timestamps (integer
seconds; the polling loop advances time in the 1-second steps of its
`time.sleep(1)`).  `MAX_REQUESTS_PER_MINUTE = 60`, `RATE_LIMIT_WINDOW = 60`.
-/

/-- `GeminiClient._check_rate_limit` as a state transformer: prune
timestamps older than the window, refuse (without recording) at the
ceiling, otherwise record `now` and accept.  Returns (new state, accept). -/
def check_rate_limit (times : List ℤ) (now : ℤ) : List ℤ × Bool :=
  let pruned := times.filter (fun t => now - t < 60)
  if 60 ≤ pruned.length then (pruned, false)
  else (pruned ++ [now], true)

/-- The polling loop of `GeminiClient._wait_for_rate_limit` with
`max_wait = 65`: poll `check_rate_limit`; on failure raise the timeout
once the elapsed wait exceeds 65 seconds, else sleep one second and
retry.  `remaining = 66 - elapsed`, so `elapsed > 65` is `remaining = 0`.
Returns (final state, final time, success). -/
def waitPoll (times : List ℤ) (t : ℤ) : ℕ → List ℤ × ℤ × Bool
  | 0 =>
    let c := check_rate_limit times t
    if c.2 then (c.1, t, true) else (c.1, t, false)
  | r + 1 =>
    let c := check_rate_limit times t
    if c.2 then (c.1, t, true) else waitPoll c.1 (t + 1) r

/-- `GeminiClient._wait_for_rate_limit(max_wait=65)` starting at time `t`. -/
def wait_for_rate_limit (times : List ℤ) (t : ℤ) : List ℤ × ℤ × Bool :=
  waitPoll times t 66

/-- `GeminiClient.generate_content` (rate-limit-relevant structure).
`modelAvailable` is `self.model is not None`; `backend` is the outcome of
the external `model.generate_content` call at the moment it is reached
(`.error` = backend raised, which the enclosing `try` re-raises;
`.ok none` = empty response, softened to `""`).  Returns the generated
text together with the rate-window state, or the raised error message. -/
def generate_content (times : List ℤ) (t : ℤ) (wait_on_rate_limit : Bool)
    (modelAvailable : Bool) (backend : Except String (Option String)) :
    Except String (String × List ℤ) :=
  if ¬modelAvailable then Except.ok ("", times)
  else if wait_on_rate_limit then
    match wait_for_rate_limit times t with
    | (ts, _, true) =>
      match backend with
      | Except.ok r => Except.ok (r.getD "", ts)
      | Except.error e => Except.error e
    | (_, _, false) => Except.error "Rate limit wait timeout exceeded"
  else
    match check_rate_limit times t with
    | (ts, true) =>
      match backend with
      | Except.ok r => Except.ok (r.getD "", ts)
      | Except.error e => Except.error e
    | (_, false) => Except.error "Rate limit exceeded"

/-- Run a sequence of `_check_rate_limit` calls from a starting state,
returning the final state and the timestamps of the accepted calls. -/
def runChecks (times : List ℤ) : List ℤ → List ℤ × List ℤ
  | [] => (times, [])
  | t :: ts =>
    let c := check_rate_limit times t
    let rest := runChecks c.1 ts
    (rest.1, (if c.2 then [t] else []) ++ rest.2)

/-- The trailing-window membership test: `s` lies in `(T − 60, T]`. -/
def inWindow (T s : ℤ) : Bool := decide (T - 60 < s ∧ s ≤ T)

theorem check_rate_limit_refuse {times : List ℤ} {now : ℤ}
    (h : 60 ≤ (times.filter (fun s => now - s < 60)).length) :
    check_rate_limit times now = (times.filter (fun s => now - s < 60), false) := by
  simp only [check_rate_limit]
  rw [if_pos h]

theorem check_rate_limit_accept {times : List ℤ} {now : ℤ}
    (h : (times.filter (fun s => now - s < 60)).length < 60) :
    check_rate_limit times now =
      (times.filter (fun s => now - s < 60) ++ [now], true) := by
  simp only [check_rate_limit]
  rw [if_neg (by omega)]

theorem runChecks_rec_subset (calls : List ℤ) :
    ∀ st, ∀ x ∈ (runChecks st calls).2, x ∈ calls := by
  induction calls with
  | nil => intro st x hx; simp [runChecks] at hx
  | cons t ts ih =>
    intro st x hx
    simp only [runChecks] at hx
    rcases List.mem_append.mp hx with h | h
    · rcases hc : (check_rate_limit st t).2 with _ | _
      · rw [hc] at h; simp at h
      · rw [hc] at h
        simp at h
        simp [h]
    · exact List.mem_cons_of_mem _ (ih _ x h)

/-- Pruning at a call time `t ≤ T` keeps every state entry that lies in
the trailing window `(T − 60, T]`. -/
theorem filter_window_of_prune (st : List ℤ) {t T : ℤ} (h : t ≤ T) :
    (st.filter (fun s => t - s < 60)).filter (inWindow T) =
      st.filter (inWindow T) := by
  rw [List.filter_comm]
  apply List.filter_eq_self.mpr
  intro a ha
  have hw := List.of_mem_filter ha
  simp only [inWindow, decide_eq_true_eq] at hw
  simp only [decide_eq_true_eq]
  omega

/-- Strengthened window invariant: along any time-ordered call trace, the
accepted timestamps falling in any trailing 60-second interval, plus the
window-resident entries already in the state, never exceed 60. -/
theorem runChecks_window_aux :
    ∀ (calls : List ℤ) (st : List ℤ) (T : ℤ), calls.Pairwise (· ≤ ·) →
      ((runChecks st calls).2.filter (inWindow T)).length +
        min (st.filter (inWindow T)).length 60 ≤ 60 := by
  intro calls
  induction calls with
  | nil =>
    intro st T _
    simp [runChecks]
  | cons t ts ih =>
    intro st T hp
    have hts : ts.Pairwise (· ≤ ·) := (List.pairwise_cons.mp hp).2
    have hhead : ∀ x ∈ ts, t ≤ x := (List.pairwise_cons.mp hp).1
    simp only [runChecks]
    rcases le_or_lt t T with htT | htT
    · -- the call happens no later than T
      by_cases hceil : 60 ≤ (st.filter (fun s => t - s < 60)).length
      · -- refused: state becomes the pruned list, nothing recorded
        rw [check_rate_limit_refuse hceil]
        dsimp only
        rw [if_neg (by simp), List.nil_append]
        have h1 := ih (st.filter (fun s => t - s < 60)) T hts
        rw [filter_window_of_prune st htT] at h1
        exact h1
      · -- accepted: state = pruned ++ [t], t recorded
        push_neg at hceil
        rw [check_rate_limit_accept hceil]
        dsimp only
        rw [if_pos rfl, List.filter_append, List.length_append]
        have h1 := ih (st.filter (fun s => t - s < 60) ++ [t]) T hts
        rw [List.filter_append, filter_window_of_prune st htT,
          List.length_append] at h1
        have hA : (st.filter (inWindow T)).length ≤
            (st.filter (fun s => t - s < 60)).length := by
          rw [← filter_window_of_prune st htT]
          exact List.length_filter_le _ _
        have hk : (List.filter (inWindow T) [t]).length ≤ 1 :=
          List.length_filter_le _ _
        omega
    · -- the call happens after T: nothing recorded from here on lies in
      -- the window
      have hrec : ((if (check_rate_limit st t).2 then [t] else []) ++
          (runChecks (check_rate_limit st t).1 ts).2).filter (inWindow T) = [] := by
        apply List.filter_eq_nil_iff.mpr
        intro a ha
        rcases List.mem_append.mp ha with h | h
        · have hat : a = t := by
            by_cases hc : (check_rate_limit st t).2 = true
            · rw [if_pos hc] at h
              simpa using h
            · rw [if_neg hc] at h
              simp at h
          rw [hat]
          simp only [inWindow, decide_eq_true_eq]
          omega
        · have hats := runChecks_rec_subset ts _ a h
          have := hhead a hats
          simp only [inWindow, decide_eq_true_eq]
          omega
      rw [hrec]
      simp only [List.length_nil, Nat.zero_add]
      exact Nat.min_le_right _ _

/-- **C4.** `_check_rate_limit` prunes entries older than 60 seconds, then
refuses (recording nothing) at the 60-call ceiling and otherwise records
the current timestamp and accepts; consequently, along any time-ordered
sequence of calls starting from the empty window, the accepted
timestamps lying in any trailing 60-second interval never exceed 60. -/
theorem rate_limit_invariant :
    (∀ (times : List ℤ) (now : ℤ),
      ((times.filter (fun s => now - s < 60)).length < 60 →
        check_rate_limit times now =
          (times.filter (fun s => now - s < 60) ++ [now], true)) ∧
      (60 ≤ (times.filter (fun s => now - s < 60)).length →
        check_rate_limit times now =
          (times.filter (fun s => now - s < 60), false))) ∧
    (∀ (calls : List ℤ), calls.Pairwise (· ≤ ·) → ∀ T : ℤ,
      ((runChecks [] calls).2.filter (inWindow T)).length ≤ 60) := by
  refine ⟨fun times now => ⟨check_rate_limit_accept, check_rate_limit_refuse⟩, ?_⟩
  intro calls hp T
  have := runChecks_window_aux calls [] T hp
  simpa using this

/-- Witness for C4 at a concrete trace. -/
theorem rate_limit_invariant_witness :
    check_rate_limit [] 0 =
      (([] : List ℤ).filter (fun s => (0 : ℤ) - s < 60) ++ [0], true) ∧
    ((runChecks [] [0, 30, 100]).2.filter (inWindow 100)).length ≤ 60 :=
  ⟨(rate_limit_invariant.1 [] 0).1 (by decide),
    rate_limit_invariant.2 [0, 30, 100] (by decide) 100⟩

theorem waitPoll_false_time :
    ∀ (r : ℕ) (times : List ℤ) (t : ℤ),
      (waitPoll times t r).2.2 = false → (waitPoll times t r).2.1 = t + r := by
  intro r
  induction r with
  | zero =>
    intro times t h
    simp only [waitPoll] at h ⊢
    by_cases hc : (check_rate_limit times t).2 = true
    · rw [if_pos hc] at h
      simp at h
    · rw [if_neg hc]
      simp
  | succ r ih =>
    intro times t h
    simp only [waitPoll] at h ⊢
    by_cases hc : (check_rate_limit times t).2 = true
    · rw [if_pos hc] at h
      simp at h
    · rw [if_neg hc] at h ⊢
      rw [ih _ (t + 1) h]
      push_cast
      ring

/-- **C5.** At the ceiling, a non-blocking `generate_content` call fails
immediately with the rate-limit-exceeded error; when the blocking poll
loop fails, `generate_content` fails with the rate-limit-timeout error
and the failure happens exactly 66 seconds (> the 65-second maximum wait)
after the start, the check having been polled at 1-second intervals; and
a blocking call at the ceiling whose recorded calls age out of the
60-second window succeeds (scenario: 60 calls recorded at time 42, a
blocking call at time 100 succeeds at time 102). -/
theorem generate_content_rate_limit :
    (∀ (times : List ℤ) (t : ℤ) (backend : Except String (Option String)),
      60 ≤ (times.filter (fun s => t - s < 60)).length →
      generate_content times t false true backend =
        Except.error "Rate limit exceeded") ∧
    (∀ (times : List ℤ) (t : ℤ) (backend : Except String (Option String)),
      (wait_for_rate_limit times t).2.2 = false →
      generate_content times t true true backend =
        Except.error "Rate limit wait timeout exceeded" ∧
      (wait_for_rate_limit times t).2.1 = t + 66) ∧
    generate_content (List.replicate 60 (42 : ℤ)) 100 true true
        (Except.ok (some "ok")) = Except.ok ("ok", [102]) := by
    refine ⟨?_, ?_, rfl⟩
    · intro times t backend h
      simp only [generate_content]
      rw [check_rate_limit_refuse h]
      simp
    · intro times t backend h
      constructor
      · simp only [generate_content]
        rcases hw : wait_for_rate_limit times t with ⟨ts, t', b⟩
        rw [hw] at h
        simp only at h
        subst h
        simp
      · rw [show (wait_for_rate_limit times t).2.1 = (waitPoll times t 66).2.1 from rfl]
        exact waitPoll_false_time 66 times t h

/-- Witness for C5 at concrete inputs (the timeout branch is reachable
only from a window state holding timestamps that never age out during
the wait, e.g. far-future ones). -/
theorem generate_content_rate_limit_witness :
    generate_content (List.replicate 60 (90 : ℤ)) 100 false true
        (Except.ok none) = Except.error "Rate limit exceeded" ∧
    (generate_content (List.replicate 60 (1000000 : ℤ)) 0 true true
        (Except.ok none) = Except.error "Rate limit wait timeout exceeded" ∧
      (wait_for_rate_limit (List.replicate 60 (1000000 : ℤ)) 0).2.1 = 0 + 66) :=
  ⟨generate_content_rate_limit.1 (List.replicate 60 (90 : ℤ)) 100
      (Except.ok none) (by decide),
    generate_content_rate_limit.2.1 (List.replicate 60 (1000000 : ℤ)) 0
      (Except.ok none) (by decide)⟩

/-! ## `backend/agents/base_agent.py` — retry_on_failure

The decorator's wrapper loop.  The wrapped function is modelled as a map
`f : ℕ → Except ε α` from attempt index to that attempt's outcome
(`.error` = the call raised).  The loop runs attempts `0, …,
max_retries − 1`, sleeping the fixed `delay` after every failed attempt
except the last; after the loop it re-raises the last error
(`raise None`, a `TypeError`, if `max_retries = 0` — modelled as
`Except.error none`).  `retryGo` returns the overall outcome together
with the number of `time.sleep(delay)` calls performed. -/

/-- The `for attempt in range(max_retries)` loop, with `remaining =
max_retries − attempt`. -/
def retryGo (f : ℕ → Except ε α) (attempt : ℕ) (lastError : Option ε) :
    ℕ → Except (Option ε) α × ℕ
  | 0 => (Except.error lastError, 0)
  | r + 1 =>
    match f attempt with
    | Except.ok a => (Except.ok a, 0)
    | Except.error e =>
      match r with
      | 0 => (Except.error (some e), 0)
      | _ + 1 =>
        let rest := retryGo f (attempt + 1) (some e) r
        (rest.1, rest.2 + 1)

/-- `retry_on_failure(max_retries, delay)` applied to `f`: outcome and
sleep count (each sleep lasting the fixed `delay`). -/
def retry_on_failure (f : ℕ → Except ε α) (max_retries : ℕ) :
    Except (Option ε) α × ℕ :=
  retryGo f 0 none max_retries

theorem retryGo_congr (f g : ℕ → Except ε α) :
    ∀ (r attempt : ℕ) (le : Option ε),
      (∀ k, attempt ≤ k → k < attempt + r → f k = g k) →
      retryGo f attempt le r = retryGo g attempt le r := by
  intro r
  induction r with
  | zero => intro attempt le _; rfl
  | succ r ih =>
    intro attempt le hagree
    simp only [retryGo]
    rw [hagree attempt le_rfl (by omega)]
    cases g attempt with
    | ok a => rfl
    | error e =>
      cases r with
      | zero => rfl
      | succ r' =>
        dsimp only
        rw [ih (attempt + 1) (some e) (fun k hk1 hk2 => hagree k (by omega) (by omega))]

theorem retryGo_first_success (f : ℕ → Except ε α) :
    ∀ (r attempt : ℕ) (le : Option ε) (k : ℕ) (a : α),
      attempt ≤ k → k < attempt + r →
      (∀ j, attempt ≤ j → j < k → (f j).isOk = false) →
      f k = Except.ok a →
      (retryGo f attempt le r).1 = Except.ok a := by
  intro r
  induction r with
  | zero => intro attempt le k a h1 h2 _ _; omega
  | succ r ih =>
    intro attempt le k a h1 h2 hfail hk
    simp only [retryGo]
    rcases Nat.eq_or_lt_of_le h1 with rfl | hlt
    · rw [hk]
    · have hf := hfail attempt le_rfl hlt
      cases hfa : f attempt with
      | ok b => rw [hfa] at hf; simp [Except.isOk, Except.toBool] at hf
      | error e =>
        cases r with
        | zero => omega
        | succ r' =>
          dsimp only
          exact ih (attempt + 1) (some e) k a (by omega) (by omega)
            (fun j hj1 hj2 => hfail j (by omega) hj2) hk

theorem retryGo_all_fail (f : ℕ → Except ε α) (es : ℕ → ε) :
    ∀ (r attempt : ℕ) (le : Option ε),
      0 < r →
      (∀ k, attempt ≤ k → k < attempt + r → f k = Except.error (es k)) →
      (retryGo f attempt le r).1 = Except.error (some (es (attempt + r - 1))) ∧
      (retryGo f attempt le r).2 = r - 1 := by
  intro r
  induction r with
  | zero => intro attempt le h _; omega
  | succ r ih =>
    intro attempt le _ hfail
    simp only [retryGo]
    rw [hfail attempt le_rfl (by omega)]
    cases r with
    | zero => simp
    | succ r' =>
      dsimp only
      have hrec := ih (attempt + 1) (some (es attempt)) (by omega)
        (fun k hk1 hk2 => hfail k (by omega) (by omega))
      have harg : attempt + 1 + (r' + 1) - 1 = attempt + (r' + 1 + 1) - 1 := by
        omega
      refine ⟨?_, ?_⟩
      · rw [hrec.1, harg]
      · rw [hrec.2]
        omega

/-- **C7.** The bounded-retry wrapper consults the wrapped function on at
most the first `N` attempt indices (result unchanged if two functions
agree there); it returns the first successful attempt's result unchanged;
after all `N` attempts fail it re-raises the error of the last attempt
(never fabricating a success); and it sleeps the fixed delay exactly
`N − 1` times in the all-fail case, i.e. only between attempts. -/
theorem retry_on_failure_contract :
    (∀ (f g : ℕ → Except ε α) (N : ℕ),
      (∀ k, k < N → f k = g k) →
      retry_on_failure f N = retry_on_failure g N) ∧
    (∀ (f : ℕ → Except ε α) (N k : ℕ) (a : α),
      k < N →
      (∀ j, j < k → (f j).isOk = false) →
      f k = Except.ok a →
      (retry_on_failure f N).1 = Except.ok a) ∧
    (∀ (f : ℕ → Except ε α) (es : ℕ → ε) (N : ℕ),
      0 < N →
      (∀ k, k < N → f k = Except.error (es k)) →
      (retry_on_failure f N).1 = Except.error (some (es (N - 1))) ∧
      (retry_on_failure f N).2 = N - 1) := by
  refine ⟨?_, ?_, ?_⟩
  · intro f g N h
    exact retryGo_congr f g N 0 none (fun k _ hk => h k (by omega))
  · intro f N k a hk hfail hok
    exact retryGo_first_success f N 0 none k a (Nat.zero_le k) (by omega)
      (fun j _ hj => hfail j hj) hok
  · intro f es N hN hfail
    have := retryGo_all_fail f es N 0 none hN (fun k _ hk => hfail k (by omega))
    simpa using this

/-- Witness for C7 at concrete inputs: a function succeeding on attempt 1
after failing attempt 0, and a function failing all 3 attempts. -/
theorem retry_on_failure_contract_witness :
    (retry_on_failure (fun k => if k = 0 then Except.error "boom"
      else Except.ok (k + 10)) 3).1 = Except.ok 11 ∧
    ((retry_on_failure (fun k =>
        (Except.error (toString k) : Except String ℕ)) 3).1 =
      Except.error (some (toString (3 - 1))) ∧
     (retry_on_failure (fun k =>
        (Except.error (toString k) : Except String ℕ)) 3).2 = 3 - 1) :=
  ⟨retry_on_failure_contract.2.1
      (fun k => if k = 0 then Except.error "boom" else Except.ok (k + 10))
      3 1 11 (by decide) (fun j hj => by
        have hj0 : j = 0 := by omega
        subst hj0
        rfl) rfl,
    retry_on_failure_contract.2.2
      (fun k => (Except.error (toString k) : Except String ℕ)) toString 3
      (by decide) (fun k _ => rfl)⟩

/-! ## `backend/storage/vector_store.py` — ChromaVectorStore

The Chroma collection is modelled as a `List VEntry`; operations pass the
collection state explicitly.  Entry metadata not read by any claim
(`difficulty`, `is_vocabulary`, `word_count`, span offsets) is omitted.
The backend's semantic ranking is an injected distance oracle. -/

/-- A stored chunk: Chroma id, owning `pdf_id` metadata, document text and
page. -/
structure VEntry where
  id : String
  pdf_id : String
  document : String
  page : ℕ
deriving Repr, DecidableEq

/-- A chunk dictionary passed to `add_pdf_chunks` (`chunk_id` may be
absent, in which case Python substitutes `f"{pdf_id}_{uuid4()}"`). -/
structure CChunk where
  chunk_id : Option String
  text : String
  page : ℕ
deriving Repr, DecidableEq

/-- `ChromaVectorStore.add_pdf_chunks`: an empty chunk list is refused
(`return False`) before anything touches the collection; otherwise all
chunks are written and the call returns `True`.  `uuidGen` supplies the
uuid for chunks without a `chunk_id`. -/
def add_pdf_chunks (store : List VEntry) (pdf_id : String)
    (chunks : List CChunk) (uuidGen : ℕ → String) : List VEntry × Bool :=
  if chunks.isEmpty then (store, false)
  else
    let newEntries := chunks.enum.map (fun ic =>
      { id := ic.2.chunk_id.getD (pdf_id ++ "_" ++ uuidGen ic.1)
        pdf_id := pdf_id
        document := ic.2.text
        page := ic.2.page : VEntry })
    (store ++ newEntries, true)

/-- `ChromaVectorStore.delete_pdf_collection`: collect the ids of every
entry whose `pdf_id` matches; if there are none, return `False` (a
warning, not an exception); otherwise delete by those ids and return
`True`. -/
def delete_pdf_collection (store : List VEntry) (pdf_id : String) :
    List VEntry × Bool :=
  let ids := (store.filter (fun e => e.pdf_id == pdf_id)).map (fun e => e.id)
  if ids.isEmpty then (store, false)
  else (store.filter (fun e => !(ids.contains e.id)), true)

/-- `ChromaVectorStore.retrieve_relevant_chunks`: the backend query
returns the entries scoped to `pdf_id`, ordered by ascending semantic
distance (`dist` is the backend's distance-to-query oracle), truncated to
`top_k`, and converted to the chunk dictionaries `QAAgent` consumes. -/
def retrieve_relevant_chunks (dist : VEntry → ℚ) (store : List VEntry)
    (pdf_id : String) (top_k : ℕ) : List RChunk :=
  (((store.filter (fun e => e.pdf_id == pdf_id)).insertionSort
      (fun a b => dist a ≤ dist b)).take top_k).map
    (fun e => { content := e.document, page := e.page, distance := some (dist e) })

/-- **C10.** Adding an empty chunk list returns `False` (not an
exception) and performs no write: the collection is exactly what it was
before the call. -/
theorem add_pdf_chunks_empty (store : List VEntry) (pdf_id : String)
    (uuidGen : ℕ → String) :
    add_pdf_chunks store pdf_id [] uuidGen = (store, false) := rfl

/-- **C6 (amended).** `delete_pdf_collection` removes every chunk tied to
the given document and returns a boolean — `True` when at least one chunk
existed, `False` (not an exception, and with the collection untouched)
when the document has zero chunks — not the removed count; afterwards a
query scoped to that document returns the empty result set. -/
theorem delete_pdf_collection_spec (store : List VEntry) (pdf_id : String)
    (dist : VEntry → ℚ) (top_k : ℕ) :
    ((delete_pdf_collection store pdf_id).2 =
      !(store.filter (fun e => e.pdf_id == pdf_id)).isEmpty) ∧
    ((store.filter (fun e => e.pdf_id == pdf_id)).isEmpty = true →
      delete_pdf_collection store pdf_id = (store, false)) ∧
    (delete_pdf_collection store pdf_id).1.filter
      (fun e => e.pdf_id == pdf_id) = [] ∧
    retrieve_relevant_chunks dist (delete_pdf_collection store pdf_id).1
      pdf_id top_k = [] := by
  have hmatch : (delete_pdf_collection store pdf_id).1.filter
      (fun e => e.pdf_id == pdf_id) = [] := by
    simp only [delete_pdf_collection]
    by_cases hemp : ((store.filter (fun e => e.pdf_id == pdf_id)).map
        (fun e => e.id)).isEmpty = true
    · rw [if_pos hemp]
      simp only [List.isEmpty_iff, List.map_eq_nil_iff] at hemp
      exact hemp
    · rw [if_neg hemp]
      apply List.filter_eq_nil_iff.mpr
      intro a ha
      have hmem := List.mem_filter.mp ha
      intro hpdf
      have hid : a.id ∈ (store.filter (fun e => e.pdf_id == pdf_id)).map
          (fun e => e.id) :=
        List.mem_map_of_mem _ (List.mem_filter.mpr ⟨hmem.1, hpdf⟩)
      have h2 := hmem.2
      simp only [Bool.not_eq_true'] at h2
      simp only [List.contains] at h2
      rw [List.elem_iff.mpr hid] at h2
      exact absurd h2 (by simp)
  refine ⟨?_, ?_, hmatch, ?_⟩
  · simp only [delete_pdf_collection]
    by_cases hemp : ((store.filter (fun e => e.pdf_id == pdf_id)).map
        (fun e => e.id)).isEmpty = true
    · rw [if_pos hemp]
      simp only [List.isEmpty_iff, List.map_eq_nil_iff] at hemp
      rw [hemp]
      rfl
    · rw [if_neg hemp]
      have h0 : store.filter (fun e => e.pdf_id == pdf_id) ≠ [] := by
        intro hc
        apply hemp
        rw [hc]
        rfl
      cases hfe : store.filter (fun e => e.pdf_id == pdf_id) with
      | nil => exact absurd hfe h0
      | cons x xs => rfl
  · intro h
    have h0 : store.filter (fun e => e.pdf_id == pdf_id) = [] :=
      List.isEmpty_iff.mp h
    simp only [delete_pdf_collection, h0]
    rfl
  · simp only [retrieve_relevant_chunks]
    rw [hmatch]
    simp [List.insertionSort, List.take_nil]

/-- **Counterexample to C6 as stated.** For a document with two chunks the
call returns the boolean `True` — numerically `1` under Python's
`bool`/`int` identification — not the removed count `2`. -/
theorem delete_pdf_collection_not_count :
    (delete_pdf_collection
      [⟨"c1", "doc1", "t1", 1⟩, ⟨"c2", "doc1", "t2", 1⟩] "doc1").2 = true ∧
    ([(⟨"c1", "doc1", "t1", 1⟩ : VEntry), ⟨"c2", "doc1", "t2", 1⟩].length -
      (delete_pdf_collection
        [⟨"c1", "doc1", "t1", 1⟩, ⟨"c2", "doc1", "t2", 1⟩] "doc1").1.length) = 2 ∧
    Bool.toNat (delete_pdf_collection
      [⟨"c1", "doc1", "t1", 1⟩, ⟨"c2", "doc1", "t2", 1⟩] "doc1").2 ≠ 2 := by
  refine ⟨?_, ?_, ?_⟩ <;> decide

/-- Witness for the amended C6 at a concrete input (a document with zero
chunks). -/
theorem delete_pdf_collection_spec_witness :
    delete_pdf_collection [(⟨"c1", "doc1", "t", 1⟩ : VEntry)] "doc2" =
      ([⟨"c1", "doc1", "t", 1⟩], false) ∧
    retrieve_relevant_chunks (fun _ => 0)
      (delete_pdf_collection [(⟨"c1", "doc1", "t", 1⟩ : VEntry)] "doc2").1
      "doc2" 5 = [] :=
  ⟨(delete_pdf_collection_spec [⟨"c1", "doc1", "t", 1⟩] "doc2"
      (fun _ => 0) 5).2.1 (by decide),
    (delete_pdf_collection_spec [⟨"c1", "doc1", "t", 1⟩] "doc2"
      (fun _ => 0) 5).2.2.2⟩

/-! ## `backend/storage/pdf_handler.py` — PDFHandler.validate_pdf

The filesystem and the PDF parser are abstracted as an environment of
call outcomes; every `Except.error` value models the corresponding Python
call raising (the code converts all of them into a returned result
dictionary).  A `getSize` failure is absorbed by the outermost
`try`/`except` of the function. -/

/-- What `pdfplumber.open` yields: a page count and the first page's
`extract_text()` result (`none` = Python `None`). -/
structure PDFDoc where
  pageCount : ℕ
  firstPageText : Option String
deriving Repr, DecidableEq

/-- Outcomes of the I/O calls `validate_pdf` makes. -/
structure FSEnv where
  fileExists : Bool
  getSize : Except String ℕ
  magicMime : Except String String
  openPdf : Except String PDFDoc

/-- The result dictionary of `validate_pdf`, always carrying all five
keys. -/
structure VResult where
  valid : Bool
  error : Option String
  page_count : ℕ
  file_size : ℕ
  warnings : List String
deriving Repr, DecidableEq

/-- `MAX_FILE_SIZE` (50 MB). -/
def MAX_FILE_SIZE : ℕ := 50 * 1024 * 1024

/-- `MAX_PAGES`. -/
def MAX_PAGES : ℕ := 500

/-- The page-count / sample-text block of `validate_pdf` (the body of the
`with pdfplumber.open(...)` statement and its `except` clause). -/
def validate_pages (env : FSEnv) (r : VResult) : VResult :=
  match env.openPdf with
  | Except.error e => { r with error := some ("Failed to read PDF: " ++ e) }
  | Except.ok doc =>
    let r2 := { r with page_count := doc.pageCount }
    if doc.pageCount = 0 then { r2 with error := some "PDF has no pages" }
    else if MAX_PAGES < doc.pageCount then
      { r2 with error := some ("PDF has too many pages (" ++
        toString doc.pageCount ++ "). Maximum allowed: 500") }
    else
      let r3 := match doc.firstPageText with
        | none => { r2 with warnings := r2.warnings ++
            ["First page has very little extractable text. PDF may be image-based."] }
        | some s =>
          if (pyStrip s.toList).length < 10 then
            { r2 with warnings := r2.warnings ++
              ["First page has very little extractable text. PDF may be image-based."] }
          else r2
      { r3 with valid := true }

/-- `PDFHandler.validate_pdf`.  Every failure path returns a result with
`valid := false` and an error message; the magic-byte check failing only
adds a warning and continues. -/
def validate_pdf (env : FSEnv) : VResult :=
  let base : VResult :=
    { valid := false, error := none, page_count := 0, file_size := 0,
      warnings := [] }
  if ¬env.fileExists then { base with error := some "File does not exist" }
  else
    match env.getSize with
    | Except.error e =>
      { base with error := some ("Validation error: " ++ e) }
    | Except.ok size =>
      let r1 := { base with file_size := size }
      if size = 0 then { r1 with error := some "File is empty" }
      else if MAX_FILE_SIZE < size then
        { r1 with error := some "File size exceeds maximum allowed (50 MB)" }
      else
        match env.magicMime with
        | Except.ok mime =>
          if mime ≠ "application/pdf" then
            { r1 with error := some ("Invalid file type: " ++ mime ++
              ". Expected PDF.") }
          else validate_pages env r1
        | Except.error _ =>
          validate_pages env { r1 with warnings := r1.warnings ++
            ["Could not verify file type with magic bytes"] }

theorem validate_pages_error_iff (env : FSEnv) (r : VResult)
    (hr : r.error = none) (hv : r.valid = false) :
    ((validate_pages env r).valid = false ↔
      (validate_pages env r).error.isSome = true) := by
  unfold validate_pages
  cases env.openPdf with
  | error e => simp [hv]
  | ok doc =>
    dsimp only
    by_cases h0 : doc.pageCount = 0
    · rw [if_pos h0]
      simp [hv]
    · rw [if_neg h0]
      by_cases h1 : MAX_PAGES < doc.pageCount
      · rw [if_pos h1]
        simp [hv]
      · rw [if_neg h1]
        cases doc.firstPageText with
        | none => simp [hr]
        | some s =>
          dsimp only
          by_cases h2 : (pyStrip s.toList).length < 10
          · rw [if_pos h2]
            simp [hr]
          · rw [if_neg h2]
            simp [hr]

/-- **C9.** `validate_pdf` is total at its interface: for every
environment of I/O outcomes it returns a full result record (all five
keys), and `valid = false` exactly when a non-null error message is
carried — every internal failure is converted into such a result, and a
successful validation carries no error. -/
theorem validate_pdf_total (env : FSEnv) :
    ((validate_pdf env).valid = false ↔
      (validate_pdf env).error.isSome = true) ∧
    ((validate_pdf env).valid = true → (validate_pdf env).error = none) := by
  have hiff : (validate_pdf env).valid = false ↔
      (validate_pdf env).error.isSome = true := by
    unfold validate_pdf
    by_cases hfe : env.fileExists = true
    · rw [if_neg (by simp [hfe])]
      cases env.getSize with
      | error e => simp
      | ok size =>
        dsimp only
        by_cases h0 : size = 0
        · rw [if_pos h0]
          simp
        · rw [if_neg h0]
          by_cases h1 : MAX_FILE_SIZE < size
          · rw [if_pos h1]
            simp
          · rw [if_neg h1]
            cases env.magicMime with
            | ok mime =>
              dsimp only
              by_cases h2 : mime ≠ "application/pdf"
              · rw [if_pos h2]
                simp
              · rw [if_neg h2]
                exact validate_pages_error_iff env _ rfl rfl
            | error e =>
              exact validate_pages_error_iff env _ rfl rfl
    · rw [if_pos (by simp [hfe])]
      simp
  refine ⟨hiff, ?_⟩
  intro hv
  rcases he : (validate_pdf env).error with _ | msg
  · rfl
  · exfalso
    have h1 : (validate_pdf env).error.isSome = true := by rw [he]; rfl
    have h2 := hiff.mpr h1
    rw [hv] at h2
    exact absurd h2 (by simp)

/-- Witness for C9 at a concrete environment (readable 3-page PDF). -/
theorem validate_pdf_total_witness :
    ((validate_pdf ⟨true, Except.ok 100, Except.ok "application/pdf",
        Except.ok ⟨3, some "plenty of extractable text"⟩⟩).valid = false ↔
      (validate_pdf ⟨true, Except.ok 100, Except.ok "application/pdf",
        Except.ok ⟨3, some "plenty of extractable text"⟩⟩).error.isSome = true) ∧
    (validate_pdf ⟨true, Except.ok 100, Except.ok "application/pdf",
      Except.ok ⟨3, some "plenty of extractable text"⟩⟩).error = none :=
  ⟨(validate_pdf_total ⟨true, Except.ok 100, Except.ok "application/pdf",
      Except.ok ⟨3, some "plenty of extractable text"⟩⟩).1,
    (validate_pdf_total ⟨true, Except.ok 100, Except.ok "application/pdf",
      Except.ok ⟨3, some "plenty of extractable text"⟩⟩).2 (by decide)⟩

end LLCbot
